import Mathlib

/-!
Verification of the bdmt metadata utility.

The program under study is a small Python module with three operations:

* `BDMTMetadata.__init__(filename)`: checks `os.path.exists(filename)` and
  raises `FileNotFoundError` if the path is absent; otherwise it records the
  filename, parses the file with `xml.etree.ElementTree`, looks up
  `.//di:discinfo/di:title/di:name` with namespace
  `di = urn:BDA:bdmv;discinfo`, strips the text, drops it when it is empty or
  equals the placeholder string under a lowercase comparison, and swallows
  every parsing exception (setting the title to absent).
* `find_bdmt_eng_file(directory)`: checks two fixed candidate paths with
  `Path.exists`, then runs `Path.rglob` for the lowercase filename, then for
  the uppercase filename, returning the first hit or nothing.
* `get_disc_title(directory)`: composes the two under a catch-all handler.

The shallow embedding models:

* the filesystem as a finite tree `Entry` of directories and files; a file
  node carries the outcome of `ET.parse` on it (`some doc` for a well-formed
  XML document, `none` for any read or parse failure such as malformed XML,
  an unreadable file, or an encoding error); a directory node carries a
  readability flag (an unreadable directory hides its contents, which models
  how `pathlib` swallows traversal errors: unreadable or vanished entries
  simply contribute no results, per the behavior of `Path.exists` and
  `Path.glob` on modern CPython, which suppress `OSError` during scanning);
* paths as lists of path components (`Path(d) / "a" / "b"` becomes
  `d ++ ["a", "b"]`);
* XML documents as element trees with a namespace URI, a local tag name, the
  direct text content (`Element.text`, possibly absent), and a child list;
* Python exceptions as an `Except` layer: `BDMTMetadata` construction is a
  function into `Except PyError BDMTMetadata`, and the catch-all in
  `get_disc_title` is an explicit handler over `get_disc_title_body`;
* `str.strip` as removal of leading and trailing ASCII whitespace and
  `str.lower` as character-wise `Char.toLower`; the strings the program
  compares against are ASCII, so this is faithful on the relevant alphabet;
* the recursive traversal order of `Path.rglob` as a fixed depth-first order
  over the sibling lists of the tree; the real enumeration order of the
  filesystem is unspecified, and no theorem below depends on more than the
  existence of a fixed traversal order.
-/

/-- Model of an XML element as produced by `xml.etree.ElementTree`: namespace
URI, local tag name, direct text content (`Element.text`), children. -/
inductive XMLElem where
  | mk (ns tag : String) (text : Option String) (children : List XMLElem)

def XMLElem.ns : XMLElem → String
  | .mk n _ _ _ => n

def XMLElem.tag : XMLElem → String
  | .mk _ t _ _ => t

def XMLElem.text : XMLElem → Option String
  | .mk _ _ tx _ => tx

def XMLElem.children : XMLElem → List XMLElem
  | .mk _ _ _ cs => cs

mutual

/-- Document-order enumeration of an element and all of its descendants,
as produced by `Element.iter()`. -/
def XMLElem.preorder : XMLElem → List XMLElem
  | .mk n t tx cs => .mk n t tx cs :: preorderList cs

/-- Document-order enumeration of the elements of a forest. -/
def preorderList : List XMLElem → List XMLElem
  | [] => []
  | c :: cs => XMLElem.preorder c ++ preorderList cs

end

/-- Namespace URI bound to the `di` prefix in the source. -/
def diNS : String := "urn:BDA:bdmv;discinfo"

/-- Does the element carry the given local tag qualified by `diNS`? This is
what matching a `di:` tag in an `ElementTree` path means. -/
def hasQTag (t : String) (e : XMLElem) : Bool :=
  e.ns == diNS && e.tag == t

/-- Model of `root.find(".//di:discinfo/di:title/di:name", ns)`.

In `ElementTree`, the `.//tag` step yields the strict descendants of the
current element with the given tag, in document order, excluding the element
itself (`prepare_descendant` skips `e is elem`); each subsequent `/tag` step
yields matching direct children; `find` returns the first element produced by
the composed generators. -/
def findTitleName (root : XMLElem) : Option XMLElem :=
  ((((preorderList root.children).filter (hasQTag "discinfo")).flatMap
      (fun d => (d.children.filter (hasQTag "title")).flatMap
        (fun t => t.children.filter (hasQTag "name")))).head?)

/-- ASCII whitespace characters removed by Python `str.strip()`. -/
def isPySpace (c : Char) : Bool :=
  c == ' ' || c == '\t' || c == '\n' || c == '\r' || c == '\x0b' || c == '\x0c'

/-- List-level model of `str.strip()`. -/
def pyStripList (l : List Char) : List Char :=
  ((l.dropWhile isPySpace).reverse.dropWhile isPySpace).reverse

/-- Model of `str.strip()`. -/
def pyStrip (s : String) : String :=
  String.mk (pyStripList s.data)

/-- Model of `str.lower()`. -/
def pyLower (s : String) : String :=
  String.mk (s.data.map Char.toLower)

/-- Model of a filesystem node. A `file` records the outcome of `ET.parse`
on it: `some doc` when the file is a well-formed XML document, `none` for
any read or parse failure. A `dir` records whether its contents can be
enumerated, plus its named entries in enumeration order. -/
inductive Entry where
  | file (doc : Option XMLElem)
  | dir (readable : Bool) (entries : List (String × Entry))

/-- Resolve one path component inside an entry: files have no children, and
an unreadable directory hides its entries. -/
def Entry.child (n : String) : Entry → Option Entry
  | .file _ => none
  | .dir r es => if r then (es.find? (fun q => q.1 == n)).map (fun q => q.2) else none

/-- Resolve a path (a list of components) from an entry. -/
def lookup : Entry → List String → Option Entry
  | e, [] => some e
  | e, n :: rest =>
    match e.child n with
    | some c => lookup c rest
    | none => none

/-- Model of `Path.exists()`: a stat that resolves is an existing path;
errors while resolving (missing or hidden components) yield `false`. -/
def pathExists (fs : Entry) (p : List String) : Bool :=
  (lookup fs p).isSome

mutual

/-- Depth-first enumeration of the paths of entries named `pat` inside a
sibling list rooted at prefix `pre`. -/
def rglobAux (pat : String) : List String → List (String × Entry) → List (List String)
  | _, [] => []
  | pre, (n, e) :: rest =>
    (if n == pat then [pre ++ [n]] else []) ++
      rglobChild pat (pre ++ [n]) e ++ rglobAux pat pre rest

/-- Depth-first enumeration of the paths of entries named `pat` strictly
below a single entry located at `pre`. Files have no descendants and an
unreadable directory contributes nothing (traversal errors are swallowed
entry by entry and the walk goes on). -/
def rglobChild (pat : String) : List String → Entry → List (List String)
  | _, .file _ => []
  | pre, .dir r es => if r then rglobAux pat pre es else []

end

/-- Model of `Path(dir).rglob(pat)` for a literal (wildcard-free) pattern:
every path strictly below `dir` whose last component equals `pat`, in
traversal order. A root that does not exist, is a file, or cannot be read
yields no matches rather than an error. -/
def rglob (fs : Entry) (dir : List String) (pat : String) : List (List String) :=
  match lookup fs dir with
  | some e => rglobChild pat dir e
  | none => []

/-- Do the names of a sibling list contain no duplicates? -/
def noDupKeys : List (String × Entry) → Bool
  | [] => true
  | (n, _) :: rest => !(rest.any (fun q => q.1 == n)) && noDupKeys rest

mutual

/-- Well-formedness of a filesystem tree: every directory's entry names are
distinct, as on a real filesystem. -/
def wfEntry : Entry → Bool
  | .file _ => true
  | .dir _ es => noDupKeys es && wfEntries es

/-- Well-formedness of every entry of a sibling list. -/
def wfEntries : List (String × Entry) → Bool
  | [] => true
  | (_, e) :: rest => wfEntry e && wfEntries rest

end

/-- Python exceptions that escape the modelled functions. -/
inductive PyError where
  | fileNotFound

/-- Object built by `BDMTMetadata.__init__`. -/
structure BDMTMetadata where
  filename : List String
  disc_title : Option String
deriving Repr

/-- Title extraction of `BDMTMetadata.__init__`, the body of its
`try` block: parse the file, find the namespaced `discinfo/title/name`
node, require its text to be truthy, strip it, and drop the placeholder
title; any exception inside the block yields an absent title. -/
def extractTitle (fs : Entry) (filename : List String) : Option String :=
  match lookup fs filename with
  | some (.file (some root)) =>
    match findTitleName root with
    | some title_node =>
      match title_node.text with
      | some tx =>
        if tx == "" then none
        else
          let title := pyStrip tx
          if title != "" && pyLower title != "blu-ray" then some title else none
      | none => none
    | none => none
  | _ => none

/-- Model of `BDMTMetadata.__init__(filename)`: raise `FileNotFoundError`
when the path does not exist, otherwise record the filename and extract the
disc title, mapping every parse failure to an absent title. -/
def BDMTMetadata.init (fs : Entry) (filename : List String) : Except PyError BDMTMetadata :=
  if (lookup fs filename).isNone then .error .fileNotFound
  else .ok { filename := filename, disc_title := extractTitle fs filename }

/-- Model of `find_bdmt_eng_file(directory)`: the two fixed candidate paths
checked with `Path.exists`, then the lowercase recursive search, then the
uppercase one. -/
def find_bdmt_eng_file (fs : Entry) (directory : List String) : Option (List String) :=
  let p1 := directory ++ ["BDMV", "META", "bdmt_eng.xml"]
  if pathExists fs p1 then some p1
  else
    let p2 := directory ++ ["META", "bdmt_eng.xml"]
    if pathExists fs p2 then some p2
    else
      match rglob fs directory "bdmt_eng.xml" with
      | p :: _ => some p
      | [] =>
        match rglob fs directory "BDMT_ENG.XML" with
        | p :: _ => some p
        | [] => none

/-- Body of `get_disc_title` without its catch-all handler: locate the
metadata file; when absent, return an absent title; otherwise construct the
metadata object and return its title. -/
def get_disc_title_body (fs : Entry) (directory : List String) : Except PyError (Option String) :=
  match find_bdmt_eng_file fs directory with
  | none => .ok none
  | some bdmt_file =>
    match BDMTMetadata.init fs bdmt_file with
    | .ok metadata => .ok metadata.disc_title
    | .error e => .error e

/-- Model of `get_disc_title(directory)`: the body wrapped in the
`try ... except Exception: return None` handler. -/
def get_disc_title (fs : Entry) (directory : List String) : Option String :=
  match get_disc_title_body fs directory with
  | .ok r => r
  | .error _ => none

/-- Title normalization written from the words of the specification, for
comparison with the code: take the direct text content; trim surrounding
whitespace; the result is absent when the text is missing or empty after
trimming, or when it equals the placeholder case-insensitively; otherwise it
is the trimmed text. -/
def specNormalizedTitle (tx : Option String) : Option String :=
  match tx with
  | none => none
  | some t =>
    let tr := pyStrip t
    if tr = "" then none
    else if pyLower tr = "blu-ray" then none
    else some tr

/-! ### Helper lemmas about the filesystem model -/

theorem lookup_append (a b : List String) :
    ∀ e : Entry, lookup e (a ++ b) = (lookup e a).bind (fun c => lookup c b) := by
  induction a with
  | nil => intro e; simp [lookup]
  | cons n rest ih =>
    intro e
    simp only [List.cons_append, lookup]
    cases e.child n with
    | none => simp
    | some c => simpa using ih c

theorem find?_of_noDupKeys {es : List (String × Entry)} {n : String} {e : Entry}
    (hnd : noDupKeys es = true) (hm : (n, e) ∈ es) :
    es.find? (fun q => q.1 == n) = some (n, e) := by
  induction es with
  | nil => cases hm
  | cons q rest ih =>
    obtain ⟨m, e0⟩ := q
    simp only [noDupKeys, Bool.and_eq_true, Bool.not_eq_true, Bool.not_eq_true'] at hnd
    rcases List.mem_cons.1 hm with heq | htail
    · cases heq
      simp [List.find?_cons_of_pos]
    · have hne : (m == n) = false := by
        rcases Bool.eq_false_or_eq_true (m == n) with ht | hf
        · exfalso
          have hmn : m = n := by simpa using ht
          subst hmn
          have hany : rest.any (fun q => q.1 == m) = true :=
            List.any_eq_true.2 ⟨(m, e), htail, by simp⟩
          rw [hnd.1] at hany
          simp at hany
        · exact hf
      rw [List.find?_cons_of_neg]
      · exact ih hnd.2 htail
      · simp [hne]

theorem wfEntry_of_mem {es : List (String × Entry)} (hwf : wfEntries es = true)
    {n : String} {e : Entry} (hm : (n, e) ∈ es) : wfEntry e = true := by
  induction es with
  | nil => cases hm
  | cons q rest ih =>
    obtain ⟨m, e0⟩ := q
    simp only [wfEntries, Bool.and_eq_true] at hwf
    rcases List.mem_cons.1 hm with heq | htail
    · cases heq; exact hwf.1
    · exact ih hwf.2 htail

theorem mem_rglobAux {pat : String} {pre p : List String} {es : List (String × Entry)} :
    p ∈ rglobAux pat pre es ↔
      ∃ n e, (n, e) ∈ es ∧
        ((n == pat) = true ∧ p = pre ++ [n] ∨ p ∈ rglobChild pat (pre ++ [n]) e) := by
  induction es with
  | nil => simp [rglobAux]
  | cons q rest ih =>
    obtain ⟨n, e⟩ := q
    simp only [rglobAux, List.mem_append, ih]
    constructor
    · rintro ((h1 | h2) | ⟨m, e2, hm, hc⟩)
      · refine ⟨n, e, List.mem_cons_self (n, e) rest, Or.inl ?_⟩
        rcases Bool.eq_false_or_eq_true (n == pat) with ht | hf
        · rw [ht] at h1; simp at h1; exact ⟨ht, h1⟩
        · rw [hf] at h1; simp at h1
      · exact ⟨n, e, List.mem_cons_self (n, e) rest, Or.inr h2⟩
      · exact ⟨m, e2, List.mem_cons_of_mem _ hm, hc⟩
    · rintro ⟨m, e2, hm, hc⟩
      rcases List.mem_cons.1 hm with heq | htail
      · cases heq
        rcases hc with ⟨hpat, hp⟩ | hrec
        · exact Or.inl (Or.inl (by rw [hpat]; simp [hp]))
        · exact Or.inl (Or.inr hrec)
      · exact Or.inr ⟨m, e2, htail, hc⟩

theorem lookup_child_of_noDup {fs : Entry} {pre : List String} {r : Bool}
    {es : List (String × Entry)} {n : String} {e : Entry}
    (hl : lookup fs pre = some (.dir r es)) (hr : r = true)
    (hnd : noDupKeys es = true) (hm : (n, e) ∈ es) :
    lookup fs (pre ++ [n]) = some e := by
  have hc : (Entry.dir r es).child n = some e := by
    simp only [Entry.child, hr, if_true]
    rw [find?_of_noDupKeys hnd hm]
    rfl
  rw [lookup_append, hl]
  simp [lookup, hc]

theorem rglobChild_sound_aux (fs : Entry) :
    ∀ (k : Nat) (e : Entry), sizeOf e ≤ k →
      ∀ (pre p : List String) (pat : String), lookup fs pre = some e → wfEntry e = true →
        p ∈ rglobChild pat pre e → (lookup fs p).isSome = true := by
  intro k
  induction k with
  | zero =>
    intro e he
    exfalso
    cases e <;> simp at he
  | succ k ih =>
    intro e he pre p pat hl hw hp
    match e with
    | .file doc => simp [rglobChild] at hp
    | .dir r es =>
      simp only [rglobChild] at hp
      rcases Bool.eq_false_or_eq_true r with hrt | hrf
      case inr => rw [hrf] at hp; simp at hp
      case inl =>
        rw [hrt] at hp
        simp only [if_true] at hp
        rcases mem_rglobAux.1 hp with ⟨n, e2, hmem, hcase⟩
        have hw2 : noDupKeys es = true ∧ wfEntries es = true := by
          simpa [wfEntry] using hw
        have hchild : lookup fs (pre ++ [n]) = some e2 :=
          lookup_child_of_noDup hl hrt hw2.1 hmem
        rcases hcase with ⟨hpat, hpp⟩ | hrec
        · rw [hpp, hchild]; rfl
        · have hsz : sizeOf e2 ≤ k := by
            have h1 : sizeOf (n, e2) < sizeOf es := List.sizeOf_lt_of_mem hmem
            have h2 : sizeOf (Entry.dir r es) ≤ k + 1 := he
            simp only [Prod.mk.sizeOf_spec, Entry.dir.sizeOf_spec] at h1 h2
            omega
          exact ih e2 hsz (pre ++ [n]) p pat hchild (wfEntry_of_mem hw2.2 hmem) hrec

theorem wfEntry_lookup {fs : Entry} (hwf : wfEntry fs = true) :
    ∀ (q : List String) (e : Entry), lookup fs q = some e → wfEntry e = true := by
  intro q
  induction q generalizing fs with
  | nil =>
    intro e hl
    simp only [lookup] at hl
    cases hl
    exact hwf
  | cons n rest ih =>
    intro e hl
    simp only [lookup] at hl
    cases hc : fs.child n with
    | none => rw [hc] at hl; cases hl
    | some c =>
      rw [hc] at hl
      have hwc : wfEntry c = true := by
        match fs, hc, hwf with
        | .dir r es, hc, hwf =>
          simp only [Entry.child] at hc
          rcases Bool.eq_false_or_eq_true r with hrt | hrf
          case inr => rw [hrf] at hc; simp at hc
          case inl =>
            rw [hrt] at hc
            simp only [if_true] at hc
            rcases Option.map_eq_some'.1 hc with ⟨q0, hfind, hq2⟩
            have hmem : q0 ∈ es := List.mem_of_find?_eq_some hfind
            have hw2 : wfEntries es = true := by
              simp only [wfEntry, Bool.and_eq_true] at hwf
              exact hwf.2
            obtain ⟨m, e0⟩ := q0
            have he0 : e0 = c := hq2
            rw [← he0]
            exact wfEntry_of_mem hw2 hmem
      exact ih hwc e hl

theorem rglob_sound {fs : Entry} (hwf : wfEntry fs = true) {d p : List String} {pat : String}
    (hp : p ∈ rglob fs d pat) : (lookup fs p).isSome = true := by
  unfold rglob at hp
  cases hl : lookup fs d with
  | none => rw [hl] at hp; simp at hp
  | some e =>
    rw [hl] at hp
    exact rglobChild_sound_aux fs (sizeOf e) e (Nat.le_refl _) d p pat hl
      (wfEntry_lookup hwf d e hl) hp

theorem find_bdmt_eng_file_sound {fs : Entry} (hwf : wfEntry fs = true) {d p : List String}
    (h : find_bdmt_eng_file fs d = some p) : (lookup fs p).isSome = true := by
  unfold find_bdmt_eng_file at h
  by_cases h1 : pathExists fs (d ++ ["BDMV", "META", "bdmt_eng.xml"]) = true
  · rw [if_pos h1] at h
    cases h
    exact h1
  · rw [if_neg h1] at h
    by_cases h2 : pathExists fs (d ++ ["META", "bdmt_eng.xml"]) = true
    · rw [if_pos h2] at h
      cases h
      exact h2
    · rw [if_neg h2] at h
      cases hg1 : rglob fs d "bdmt_eng.xml" with
      | cons q t =>
        rw [hg1] at h
        have hqp : q = p := by injection h
        have hmem : p ∈ rglob fs d "bdmt_eng.xml" := by
          rw [hg1, ← hqp]
          exact List.mem_cons_self _ _
        exact rglob_sound hwf hmem
      | nil =>
        rw [hg1] at h
        cases hg2 : rglob fs d "BDMT_ENG.XML" with
        | cons q t =>
          rw [hg2] at h
          have hqp : q = p := by injection h
          have hmem : p ∈ rglob fs d "BDMT_ENG.XML" := by
            rw [hg2, ← hqp]
            exact List.mem_cons_self _ _
          exact rglob_sound hwf hmem
        | nil => rw [hg2] at h; cases h

/-! ### Concrete filesystems and documents used by witnesses -/

/-- Well-formed metadata document with title text MATRIX, the `discinfo`
element nested under a `disclib` wrapper as in real discs. -/
def docMatrix : XMLElem :=
  .mk "" "disclib" none
    [.mk diNS "discinfo" none
      [.mk diNS "title" none
        [.mk diNS "name" (some "MATRIX") []]]]

/-- Well-formed metadata document whose title text carries surrounding
whitespace. -/
def docInception : XMLElem :=
  .mk "" "disclib" none
    [.mk diNS "discinfo" none
      [.mk diNS "title" none
        [.mk diNS "name" (some " Inception ") []]]]

/-- Document whose root element is itself the namespaced `discinfo`,
with the full `title/name` path below it. -/
def docRootDiscinfo : XMLElem :=
  .mk diNS "discinfo" none
    [.mk diNS "title" none
      [.mk diNS "name" (some "MATRIX") []]]

/-- Filesystem with no fixed-location candidate, a deeply nested lowercase
match and a shallow uppercase match. -/
def fsW1 : Entry :=
  .dir true
    [("sub", .dir true [("deep", .dir true [("bdmt_eng.xml", .file none)])]),
     ("BDMT_ENG.XML", .file none)]

/-- Filesystem with a directory named like the metadata file at the exact
step-1 location and a real metadata file at the step-2 location. -/
def fsC6 : Entry :=
  .dir true
    [("BDMV", .dir true [("META", .dir true [("bdmt_eng.xml", .dir true [])])]),
     ("META", .dir true [("bdmt_eng.xml", .file (some docMatrix))])]

/-- Filesystem with a single metadata file at the step-2 location. -/
def fsW3 : Entry :=
  .dir true [("META", .dir true [("bdmt_eng.xml", .file (some docMatrix))])]

/-- Filesystem with one unparseable file. -/
def fsW4 : Entry := .dir true [("junk.txt", .file none)]

/-- Filesystem with one metadata file whose title text is padded with
whitespace. -/
def fsW2 : Entry := .dir true [("bdmt_eng.xml", .file (some docInception))]

/-- Filesystem with one empty subdirectory. -/
def fsW10 : Entry := .dir true [("d", .dir true [])]

/-- Filesystem whose only metadata file has `discinfo` as document root. -/
def fsC5 : Entry := .dir true [("bdmt_eng.xml", .file (some docRootDiscinfo))]

/-! ### Claim theorems -/

/-- Claim C1: for every directory, `find_bdmt_eng_file` returns the first
match in strict priority order: the step-1 exact path if it exists, else the
step-2 exact path if it exists, else the first recursive-search match for
the lowercase filename anywhere in the subtree, else the first
recursive-search match for the uppercase filename, else absent. In
particular a lowercase match anywhere takes precedence over an uppercase
match even if the uppercase one is shallower, and the step-1 check takes
precedence over any deeper nested match. -/
theorem find_bdmt_eng_file_priority (fs : Entry) (d : List String) :
    (pathExists fs (d ++ ["BDMV", "META", "bdmt_eng.xml"]) = true →
      find_bdmt_eng_file fs d = some (d ++ ["BDMV", "META", "bdmt_eng.xml"])) ∧
    (pathExists fs (d ++ ["BDMV", "META", "bdmt_eng.xml"]) = false →
      pathExists fs (d ++ ["META", "bdmt_eng.xml"]) = true →
      find_bdmt_eng_file fs d = some (d ++ ["META", "bdmt_eng.xml"])) ∧
    (pathExists fs (d ++ ["BDMV", "META", "bdmt_eng.xml"]) = false →
      pathExists fs (d ++ ["META", "bdmt_eng.xml"]) = false →
      ∀ p t, rglob fs d "bdmt_eng.xml" = p :: t →
        find_bdmt_eng_file fs d = some p) ∧
    (pathExists fs (d ++ ["BDMV", "META", "bdmt_eng.xml"]) = false →
      pathExists fs (d ++ ["META", "bdmt_eng.xml"]) = false →
      rglob fs d "bdmt_eng.xml" = [] →
      ∀ p t, rglob fs d "BDMT_ENG.XML" = p :: t →
        find_bdmt_eng_file fs d = some p) ∧
    (pathExists fs (d ++ ["BDMV", "META", "bdmt_eng.xml"]) = false →
      pathExists fs (d ++ ["META", "bdmt_eng.xml"]) = false →
      rglob fs d "bdmt_eng.xml" = [] →
      rglob fs d "BDMT_ENG.XML" = [] →
      find_bdmt_eng_file fs d = none) := by
  refine ⟨?_, ?_, ?_, ?_, ?_⟩
  · intro h1
    simp [find_bdmt_eng_file, h1]
  · intro h1 h2
    simp [find_bdmt_eng_file, h1, h2]
  · intro h1 h2 p t hg
    simp [find_bdmt_eng_file, h1, h2, hg]
  · intro h1 h2 hg1 p t hg2
    simp [find_bdmt_eng_file, h1, h2, hg1, hg2]
  · intro h1 h2 hg1 hg2
    simp [find_bdmt_eng_file, h1, h2, hg1, hg2]

/-- Witness for C1 at a concrete filesystem: with no fixed-location
candidate, a deep lowercase match wins over a shallower uppercase match. -/
theorem find_bdmt_eng_file_priority_witness :
    find_bdmt_eng_file fsW1 [] = some ["sub", "deep", "bdmt_eng.xml"] :=
  (find_bdmt_eng_file_priority fsW1 []).2.2.1 rfl rfl
    ["sub", "deep", "bdmt_eng.xml"] [] rfl

/-- Claim C6 counterexample: the steps 1 and 2 of `find_bdmt_eng_file` use
an existence check, not an is-a-file check. On this filesystem the step-1
path is a directory and step 2 holds a real file; the claim says the
directory does not satisfy step 1 (so step 2 should win), but the code
returns the step-1 path. -/
theorem find_step1_directory_counterexample :
    lookup fsC6 ["BDMV", "META", "bdmt_eng.xml"] = some (.dir true []) ∧
    lookup fsC6 ["META", "bdmt_eng.xml"] = some (.file (some docMatrix)) ∧
    find_bdmt_eng_file fsC6 [] = some ["BDMV", "META", "bdmt_eng.xml"] :=
  ⟨rfl, rfl, rfl⟩

/-- Claim C6 as amended: steps 1 and 2 check the candidate paths for
existence of any filesystem entry; an entry that exists but is not a file,
such as a directory, also satisfies the check. -/
theorem find_step_accepts_any_entry (fs : Entry) (d : List String) (e : Entry) :
    (lookup fs (d ++ ["BDMV", "META", "bdmt_eng.xml"]) = some e →
      find_bdmt_eng_file fs d = some (d ++ ["BDMV", "META", "bdmt_eng.xml"])) ∧
    (lookup fs (d ++ ["BDMV", "META", "bdmt_eng.xml"]) = none →
      lookup fs (d ++ ["META", "bdmt_eng.xml"]) = some e →
      find_bdmt_eng_file fs d = some (d ++ ["META", "bdmt_eng.xml"])) := by
  constructor
  · intro h1
    have he1 : pathExists fs (d ++ ["BDMV", "META", "bdmt_eng.xml"]) = true := by
      simp [pathExists, h1]
    simp [find_bdmt_eng_file, he1]
  · intro h1 h2
    have he1 : pathExists fs (d ++ ["BDMV", "META", "bdmt_eng.xml"]) = false := by
      simp [pathExists, h1]
    have he2 : pathExists fs (d ++ ["META", "bdmt_eng.xml"]) = true := by
      simp [pathExists, h2]
    simp [find_bdmt_eng_file, he1, he2]

/-- Witness for the amended C6: the step-1 directory entry of `fsC6` is
returned by the locator. -/
theorem find_step_accepts_any_entry_witness :
    find_bdmt_eng_file fsC6 [] = some ["BDMV", "META", "bdmt_eng.xml"] :=
  (find_step_accepts_any_entry fsC6 [] (.dir true [])).1 rfl

/-- Claim C7: `find_bdmt_eng_file` never raises to its caller; a directory
that does not exist or cannot be read is treated as no match. In the model
the filesystem primitives are total functions (as on modern CPython, where
`Path.exists` and `Path.glob` suppress `OSError` during scanning and
traversal errors skip the offending entry without aborting the walk), and
this theorem states the observable part: a missing root and an unreadable
root both yield an absent result rather than an error. -/
theorem find_bdmt_eng_file_no_match_on_bad_root (fs : Entry) (d : List String) :
    (lookup fs d = none → find_bdmt_eng_file fs d = none) ∧
    (∀ es, lookup fs d = some (.dir false es) → find_bdmt_eng_file fs d = none) := by
  constructor
  · intro h
    have hsub : ∀ b : List String, pathExists fs (d ++ b) = false := by
      intro b
      simp [pathExists, lookup_append, h]
    have hg : ∀ pat : String, rglob fs d pat = [] := by
      intro pat
      simp [rglob, h]
    simp [find_bdmt_eng_file, hsub, hg]
  · intro es h
    have hsub : ∀ (n : String) (b : List String), pathExists fs (d ++ (n :: b)) = false := by
      intro n b
      simp [pathExists, lookup_append, h, lookup, Entry.child]
    have hg : ∀ pat : String, rglob fs d pat = [] := by
      intro pat
      simp [rglob, h, rglobChild]
    simp [find_bdmt_eng_file, hsub, hg]

/-- Witness for C7: searching under a path that does not exist yields no
match. -/
theorem find_bdmt_eng_file_no_match_witness :
    find_bdmt_eng_file fsW10 ["nope"] = none :=
  (find_bdmt_eng_file_no_match_on_bad_root fsW10 ["nope"]).1 rfl

/-- Claim C3: `get_disc_title` never raises; every failure mode collapses to
an absent result. The first conjunct states the catch-all behavior: any
exception of the body is turned into an absent title. The second states
that on a well-formed filesystem (distinct names per directory, as on a
real filesystem) the body itself never raises, because the locator only
returns existing paths, so the defensively handled NotFound case indeed
cannot occur. -/
theorem get_disc_title_never_raises (fs : Entry) (d : List String) :
    (∀ e, get_disc_title_body fs d = .error e → get_disc_title fs d = none) ∧
    (wfEntry fs = true → ∃ r, get_disc_title_body fs d = .ok r ∧ get_disc_title fs d = r) := by
  constructor
  · intro e h
    simp [get_disc_title, h]
  · intro hwf
    cases hf : find_bdmt_eng_file fs d with
    | none =>
      exact ⟨none, by simp [get_disc_title_body, hf],
        by simp [get_disc_title, get_disc_title_body, hf]⟩
    | some f =>
      have hex : (lookup fs f).isSome = true := find_bdmt_eng_file_sound hwf hf
      have hinit : BDMTMetadata.init fs f =
          .ok { filename := f, disc_title := extractTitle fs f } := by
        cases hx : lookup fs f with
        | none => rw [hx] at hex; simp at hex
        | some v => simp [BDMTMetadata.init, hx]
      exact ⟨extractTitle fs f, by simp [get_disc_title_body, hf, hinit],
        by simp [get_disc_title, get_disc_title_body, hf, hinit]⟩

/-- Witness for C3 at a concrete filesystem: the body succeeds and the
wrapper returns its result. -/
theorem get_disc_title_never_raises_witness :
    ∃ r, get_disc_title_body fsW3 [] = .ok r ∧ get_disc_title fsW3 [] = r :=
  (get_disc_title_never_raises fsW3 []).2 rfl

/-- Claim C4: constructing `BDMTMetadata` raises the NotFound error if and
only if the path does not exist; when the path exists construction always
succeeds, and on any parse or read failure (a file whose parse outcome is
absent) the object carries an absent `disc_title`. -/
theorem BDMTMetadata_init_not_found_iff (fs : Entry) (p : List String) :
    (BDMTMetadata.init fs p = .error .fileNotFound ↔ lookup fs p = none) ∧
    ((lookup fs p).isSome = true →
      BDMTMetadata.init fs p = .ok { filename := p, disc_title := extractTitle fs p }) ∧
    (lookup fs p = some (.file none) →
      BDMTMetadata.init fs p = .ok { filename := p, disc_title := none }) := by
  refine ⟨⟨?_, ?_⟩, ?_, ?_⟩
  · intro h
    cases hx : lookup fs p with
    | none => rfl
    | some v => simp [BDMTMetadata.init, hx] at h
  · intro h
    simp [BDMTMetadata.init, h]
  · intro h
    cases hx : lookup fs p with
    | none => rw [hx] at h; simp at h
    | some v => simp [BDMTMetadata.init, hx]
  · intro h
    have hext : extractTitle fs p = none := by
      unfold extractTitle
      rw [h]
    simp [BDMTMetadata.init, h, hext]

/-- Witness for C4: an existing unparseable file yields a constructed
object with an absent title, and a missing path yields the NotFound
error. -/
theorem BDMTMetadata_init_not_found_iff_witness :
    BDMTMetadata.init fsW4 ["junk.txt"] = .ok { filename := ["junk.txt"], disc_title := none } ∧
    BDMTMetadata.init fsW4 ["missing.xml"] = .error .fileNotFound :=
  ⟨(BDMTMetadata_init_not_found_iff fsW4 ["junk.txt"]).2.2 rfl,
   (BDMTMetadata_init_not_found_iff fsW4 ["missing.xml"]).1.2 rfl⟩

/-- Claim C10: constructing `BDMTMetadata` on a path that exists but is a
directory passes the existence precondition, does not raise, and yields an
object whose `filename` is the given path and whose `disc_title` is absent
(the attempt to parse a directory fails and is swallowed). -/
theorem BDMTMetadata_init_on_directory (fs : Entry) (p : List String) (r : Bool)
    (es : List (String × Entry)) (h : lookup fs p = some (.dir r es)) :
    BDMTMetadata.init fs p = .ok { filename := p, disc_title := none } := by
  have hext : extractTitle fs p = none := by
    unfold extractTitle
    rw [h]
  simp [BDMTMetadata.init, h, hext]

/-- Witness for C10: constructing the object on an empty directory. -/
theorem BDMTMetadata_init_on_directory_witness :
    BDMTMetadata.init fsW10 ["d"] = .ok { filename := ["d"], disc_title := none } :=
  BDMTMetadata_init_on_directory fsW10 ["d"] true [] rfl

/-- Claim C2: when the located file parses and the title element is found,
the extracted title is the element's direct text trimmed of surrounding
whitespace; it is absent when the text is missing or empty after trimming
or equals the placeholder under a case-insensitive comparison; otherwise
the trimmed text is the disc title. The right-hand side
`specNormalizedTitle` is written from the words of the specification. -/
theorem extractTitle_matches_spec (fs : Entry) (p : List String) (doc node : XMLElem)
    (hf : lookup fs p = some (.file (some doc)))
    (hn : findTitleName doc = some node) :
    BDMTMetadata.init fs p = .ok { filename := p, disc_title := specNormalizedTitle node.text } := by
  have hext : extractTitle fs p = specNormalizedTitle node.text := by
    unfold extractTitle
    simp only [hf, hn]
    cases htx : node.text with
    | none => simp [specNormalizedTitle]
    | some tx =>
      simp only [specNormalizedTitle]
      by_cases hte : tx = ""
      · subst hte
        simp [pyStrip, pyStripList]
      · have hbe : (tx == "") = false := by simp [hte]
        simp only [hbe, Bool.false_eq_true, if_false]
        by_cases hs : pyStrip tx = ""
        · simp [hs, bne]
        · by_cases hb : pyLower (pyStrip tx) = "blu-ray"
          · simp [hs, hb, bne]
          · simp [hs, hb, bne]
  simp [BDMTMetadata.init, hf, hext]

/-- Witness for C2: a title text padded with whitespace yields the trimmed
title. -/
theorem extractTitle_matches_spec_witness :
    BDMTMetadata.init fsW2 ["bdmt_eng.xml"] =
      .ok { filename := ["bdmt_eng.xml"], disc_title := some "Inception" } := by
  rw [extractTitle_matches_spec fsW2 ["bdmt_eng.xml"] docInception
    (XMLElem.mk diNS "name" (some " Inception ") []) rfl rfl]
  rfl

/-- Elements at the head of a stripped character list are not whitespace. -/
theorem head?_pyStripList {l : List Char} {c : Char}
    (h : (pyStripList l).head? = some c) : isPySpace c = false := by
  unfold pyStripList at h
  rw [List.head?_reverse] at h
  obtain ⟨u, hu⟩ :=
    List.dropWhile_suffix (l := (l.dropWhile isPySpace).reverse) isPySpace
  have hrev : ((l.dropWhile isPySpace).reverse).getLast? = some c := by
    rw [← hu, List.getLast?_append, h]
    rfl
  rw [List.getLast?_reverse] at hrev
  have hh := List.head?_dropWhile_not isPySpace l
  rw [hrev] at hh
  simpa using hh

/-- Elements at the end of a stripped character list are not whitespace. -/
theorem getLast?_pyStripList {l : List Char} {c : Char}
    (h : (pyStripList l).getLast? = some c) : isPySpace c = false := by
  unfold pyStripList at h
  rw [List.getLast?_reverse] at h
  have hh := List.head?_dropWhile_not isPySpace (l.dropWhile isPySpace).reverse
  rw [h] at hh
  simpa using hh

/-- Every title produced by the extraction is non-empty, carries no
surrounding whitespace, and is not the placeholder. -/
theorem extractTitle_invariant {fs : Entry} {p : List String} {s : String}
    (h : extractTitle fs p = some s) :
    s ≠ "" ∧ (∀ c, s.data.head? = some c → isPySpace c = false) ∧
      (∀ c, s.data.getLast? = some c → isPySpace c = false) ∧
      pyLower s ≠ "blu-ray" := by
  unfold extractTitle at h
  cases hl : lookup fs p with
  | none => simp [hl] at h
  | some e =>
    rcases e with doc0 | ⟨r, es⟩
    case dir => simp [hl] at h
    case file =>
      rcases doc0 with _ | doc
      · simp [hl] at h
      · simp only [hl] at h
        cases hn : findTitleName doc with
        | none => simp [hn] at h
        | some node =>
          simp only [hn] at h
          cases htx : node.text with
          | none => simp [htx] at h
          | some tx =>
            simp only [htx] at h
            by_cases hte : (tx == "") = true
            · simp [hte] at h
            · rw [if_neg hte] at h
              by_cases hc : (pyStrip tx != "" && pyLower (pyStrip tx) != "blu-ray") = true
              · rw [if_pos hc] at h
                have hsv : pyStrip tx = s := by injection h
                simp only [Bool.and_eq_true, bne_iff_ne] at hc
                subst hsv
                refine ⟨hc.1, ?_, ?_, hc.2⟩
                · intro c hhd
                  exact head?_pyStripList hhd
                · intro c hls
                  exact getLast?_pyStripList hls
              · rw [if_neg hc] at h; cases h

/-- Titles of successfully constructed metadata objects satisfy the same
invariant. -/
theorem init_title_invariant {fs : Entry} {p : List String} {m : BDMTMetadata} {s : String}
    (h : BDMTMetadata.init fs p = .ok m) (ht : m.disc_title = some s) :
    s ≠ "" ∧ (∀ c, s.data.head? = some c → isPySpace c = false) ∧
      (∀ c, s.data.getLast? = some c → isPySpace c = false) ∧
      pyLower s ≠ "blu-ray" := by
  unfold BDMTMetadata.init at h
  by_cases hx : (lookup fs p).isNone = true
  · rw [if_pos hx] at h; cases h
  · rw [if_neg hx] at h
    have hm : m = { filename := p, disc_title := extractTitle fs p } := by
      injection h with h2
      exact h2.symm
    rw [hm] at ht
    exact extractTitle_invariant ht

/-- Claim C9: whenever `get_disc_title`, or the `disc_title` of a
constructed `BDMTMetadata`, yields a string rather than absent, that string
is non-empty, has no leading or trailing whitespace, and is not the
placeholder under a case-insensitive comparison. -/
theorem disc_title_invariant (fs : Entry) (p d : List String) (s : String) :
    (∀ m, BDMTMetadata.init fs p = .ok m → m.disc_title = some s →
      s ≠ "" ∧ (∀ c, s.data.head? = some c → isPySpace c = false) ∧
        (∀ c, s.data.getLast? = some c → isPySpace c = false) ∧
        pyLower s ≠ "blu-ray") ∧
    (get_disc_title fs d = some s →
      s ≠ "" ∧ (∀ c, s.data.head? = some c → isPySpace c = false) ∧
        (∀ c, s.data.getLast? = some c → isPySpace c = false) ∧
        pyLower s ≠ "blu-ray") := by
  constructor
  · intro m hinit ht
    exact init_title_invariant hinit ht
  · intro hg
    unfold get_disc_title at hg
    cases hb : get_disc_title_body fs d with
    | error e => rw [hb] at hg; cases hg
    | ok r =>
      rw [hb] at hg
      subst hg
      unfold get_disc_title_body at hb
      cases hf : find_bdmt_eng_file fs d with
      | none => simp [hf] at hb
      | some f =>
        simp only [hf] at hb
        cases hi : BDMTMetadata.init fs f with
        | error e => simp [hi] at hb
        | ok m =>
          simp only [hi] at hb
          have hm : m.disc_title = some s := by injection hb
          exact init_title_invariant hi hm

/-- Witness for C9 at a concrete filesystem whose title text is padded. -/
theorem disc_title_invariant_witness :
    "Inception" ≠ "" ∧
      (∀ c, "Inception".data.head? = some c → isPySpace c = false) ∧
      (∀ c, "Inception".data.getLast? = some c → isPySpace c = false) ∧
      pyLower "Inception" ≠ "blu-ray" :=
  (disc_title_invariant fsW2 [] [] "Inception").2 rfl

/-- Claim C5 counterexample: the element search does not cover the case
where `discinfo` is the document's root-level element. In `docRootDiscinfo`
the root itself is the namespaced `discinfo` and the full
`discinfo/title/name` path exists starting at the root (second conjunct),
yet `find` on `.//di:discinfo/di:title/di:name` yields nothing, because the
descendant step excludes the element it starts from; consequently the title
of a disc whose metadata has this shape is absent. -/
theorem findTitleName_root_discinfo_counterexample :
    hasQTag "discinfo" docRootDiscinfo = true ∧
    ((docRootDiscinfo.children.filter (hasQTag "title")).flatMap
        (fun t => t.children.filter (hasQTag "name"))).head?.map XMLElem.text =
      some (some "MATRIX") ∧
    findTitleName docRootDiscinfo = none ∧
    get_disc_title fsC5 [] = none :=
  ⟨rfl, rfl, rfl, rfl⟩

/-- Claim C5 as amended: the extractor locates the namespaced path
`discinfo/title/name` by a search over all strict descendants of the
document root, tolerating wrapper elements at any depth; an occurrence of
`discinfo` as the document root itself is not matched by the search, and
when no strict descendant matches the first segment the title is absent. -/
theorem findTitleName_strict_descendants (doc : XMLElem) :
    (∀ node, findTitleName doc = some node →
      ∃ d, d ∈ preorderList doc.children ∧ hasQTag "discinfo" d = true ∧
        ∃ t, t ∈ d.children ∧ hasQTag "title" t = true ∧
          node ∈ t.children ∧ hasQTag "name" node = true) ∧
    ((preorderList doc.children).filter (hasQTag "discinfo") = [] →
      findTitleName doc = none) := by
  constructor
  · intro node h
    unfold findTitleName at h
    obtain ⟨ys, hys⟩ := List.head?_eq_some_iff.1 h
    have hmem : node ∈ (((preorderList doc.children).filter (hasQTag "discinfo")).flatMap
        (fun d => (d.children.filter (hasQTag "title")).flatMap
          (fun t => t.children.filter (hasQTag "name")))) := by
      rw [hys]
      exact List.mem_cons_self _ _
    rcases List.mem_flatMap.1 hmem with ⟨d, hd, hrest⟩
    rcases List.mem_flatMap.1 hrest with ⟨t, ht, hname⟩
    rcases List.mem_filter.1 hd with ⟨hdmem, hdtag⟩
    rcases List.mem_filter.1 ht with ⟨htmem, httag⟩
    rcases List.mem_filter.1 hname with ⟨hnmem, hntag⟩
    exact ⟨d, hdmem, hdtag, t, htmem, httag, hnmem, hntag⟩
  · intro hempty
    unfold findTitleName
    rw [hempty]
    rfl

/-- Witness for the amended C5: in `docMatrix` the found name node is a
child of a title child of a strict-descendant `discinfo`. -/
theorem findTitleName_strict_descendants_witness :
    ∃ d, d ∈ preorderList docMatrix.children ∧ hasQTag "discinfo" d = true ∧
      ∃ t, t ∈ d.children ∧ hasQTag "title" t = true ∧
        (XMLElem.mk diNS "name" (some "MATRIX") []) ∈ t.children ∧
        hasQTag "name" (XMLElem.mk diNS "name" (some "MATRIX") []) = true :=
  (findTitleName_strict_descendants docMatrix).1
    (XMLElem.mk diNS "name" (some "MATRIX") []) rfl

/-- Claim C8: `get_disc_title` is deterministic with respect to the
filesystem state: two calls on the same directory over the same unchanged
filesystem return the same result. In the embedding the filesystem state is
the explicit argument `fs` and the operation is a pure function of `fs` and
the directory, so the two results are definitionally equal. -/
theorem get_disc_title_deterministic (fs : Entry) (d : List String) :
    get_disc_title fs d = get_disc_title fs d := rfl

example : pyStrip " Inception " = "Inception" := rfl

example : pyLower "Blu-Ray" = "blu-ray" := rfl

example :
    rglobChild "x" [] (.dir true [("y", .dir true [("x", .file none)]), ("x", .file none)]) =
      [["y", "x"], ["x"]] := rfl
